import Mathlib

/-!
Verification of the ray/primitive intersection core (`src/math/ray.rs`).

The floating point type `f32` is idealised as the real numbers; the
constants `std::f32::MAX` and `std::f32::EPSILON` become the exact real
constants below.  The supporting vector / plane / quadratic-solver
utilities live outside the two source files of the repository, so they
are modelled from the specification (see the doc comments starting with
"Modelled from the spec").  Everything else is a direct transcription of
the Rust source.
-/

noncomputable section

namespace FyroxMath

/-- Value of `std::f32::MAX`, the greatest finite `f32`: `(2 - 2⁻²³) * 2¹²⁷`. -/
def f32MAX : ℝ := 2 ^ 128 - 2 ^ 104

/-- Value of `std::f32::EPSILON`, `2⁻²³`. -/
def f32EPS : ℝ := 1 / 2 ^ 23

/-- Modelled from the spec: the 3D vector type of the support library
(`crate::math::vec3::Vec3`), which is not among the two source files.
The spec requires dot product, scaling, normalization, squared length and
squared distance. -/
structure Vec3 where
  x : ℝ
  y : ℝ
  z : ℝ

instance : Add Vec3 := ⟨fun a b => ⟨a.x + b.x, a.y + b.y, a.z + b.z⟩⟩

instance : Sub Vec3 := ⟨fun a b => ⟨a.x - b.x, a.y - b.y, a.z - b.z⟩⟩

/-- Modelled from the spec: vector negation (used for the `-va` cap normal). -/
def Vec3.neg (v : Vec3) : Vec3 := ⟨-v.x, -v.y, -v.z⟩

/-- Modelled from the spec: componentwise scaling `v * k`. -/
def Vec3.scale (v : Vec3) (k : ℝ) : Vec3 := ⟨v.x * k, v.y * k, v.z * k⟩

/-- Modelled from the spec: dot product. -/
def Vec3.dot (a b : Vec3) : ℝ := a.x * b.x + a.y * b.y + a.z * b.z

/-- Modelled from the spec: squared length. -/
def Vec3.sqr_len (v : Vec3) : ℝ := v.x * v.x + v.y * v.y + v.z * v.z

/-- Modelled from the spec: euclidean length. -/
def Vec3.len (v : Vec3) : ℝ := Real.sqrt v.sqr_len

/-- Modelled from the spec: squared distance between two points. -/
def Vec3.sqr_distance (a b : Vec3) : ℝ := (a - b).sqr_len

/-- Modelled from the spec: normalization "fails when length is near zero",
otherwise returns the vector scaled by the reciprocal of its length. -/
def Vec3.normalized (v : Vec3) : Option Vec3 :=
  if f32EPS ≤ v.len then some (v.scale (1 / v.len)) else none

/-- Modelled from the spec: "a plane type (normal + signed distance)". -/
structure Plane where
  normal : Vec3
  d : ℝ

instance : Inhabited Plane := ⟨⟨⟨0, 0, 0⟩, 0⟩⟩

/-- Modelled from the spec: "a plane type constructible from a normal and a
point (fails if the normal is degenerate)"; the stored normal is the
normalized input and `d` makes the plane pass through the point. -/
def Plane.from_normal_and_point (normal point : Vec3) : Option Plane :=
  (normal.normalized).map (fun n => ⟨n, -(point.dot n)⟩)

/-- Modelled from the spec: "a quadratic-root solver returning zero, one, or
two real roots given coefficients A, B, C", which reports roots exactly when
the discriminant `b*b - 4*a*c` is non-negative (spec section 8: the boolean
sphere test agrees with the solver-based one "iff the discriminant is
non-negative").  With a non-negative discriminant the real roots of
`a*t^2 + b*t + c = 0` are returned: two for a genuine quadratic, one for a
linear equation, none when the equation is constant. -/
def solve_quadratic (a b c : ℝ) : Option (List ℝ) :=
  if b * b - 4 * a * c < 0 then none
  else some
    (if a ≠ 0 then
      [(-b + Real.sqrt (b * b - 4 * a * c)) / (2 * a),
       (-b - Real.sqrt (b * b - 4 * a * c)) / (2 * a)]
    else if b ≠ 0 then [-c / b] else [])

/-- Pair of ray equation parameters (`IntersectionResult` in `ray.rs`). -/
structure IntersectionResult where
  min : ℝ
  max : ℝ

/-- Transcribed from `IntersectionResult::from_slice`: fold `f32::min` /
`f32::max` over the roots starting from `std::f32::MAX` / `-std::f32::MAX`. -/
def IntersectionResult.from_slice (roots : List ℝ) : IntersectionResult :=
  ⟨roots.foldl Min.min f32MAX, roots.foldl Max.max (-f32MAX)⟩

/-- Transcribed from `IntersectionResult::merge`: expands the interval if
`param` lies outside of it. -/
def IntersectionResult.merge (i : IntersectionResult) (param : ℝ) : IntersectionResult :=
  ⟨if param < i.min then param else i.min, if param > i.max then param else i.max⟩

/-- Transcribed from `IntersectionResult::merge_slice`. -/
def IntersectionResult.merge_slice (i : IntersectionResult) (params : List ℝ) : IntersectionResult :=
  params.foldl IntersectionResult.merge i

/-- One step of the `IntersectionResult::from_set` loop. -/
def IntersectionResult.from_set_step (result v : Option IntersectionResult) :
    Option IntersectionResult :=
  match result with
  | none => v
  | some r =>
    match v with
    | none => some r
    | some v => some ((r.merge v.min).merge v.max)

/-- Transcribed from `IntersectionResult::from_set`. -/
def IntersectionResult.from_set (results : List (Option IntersectionResult)) :
    Option IntersectionResult :=
  results.foldl IntersectionResult.from_set_step none

inductive CylinderKind where
  | Infinite
  | Finite
  | Capped

/-- The ray type of `ray.rs`: origin and (not necessarily unit) direction. -/
structure Ray where
  origin : Vec3
  dir : Vec3

/-- Transcribed from `Ray::from_two_points`: fails when the two points
coincide within `std::f32::EPSILON`. -/
def Ray.from_two_points (b e : Vec3) : Option Ray :=
  let dir := e - b
  if f32EPS ≤ dir.len then some ⟨b, dir⟩ else none

/-- Transcribed from `Ray::get_point`: `origin + dir * t`. -/
def Ray.get_point (ray : Ray) (t : ℝ) : Vec3 :=
  ray.origin + ray.dir.scale t

/-- Transcribed from `Ray::project_point`. -/
def Ray.project_point (ray : Ray) (point : Vec3) : ℝ :=
  (point - ray.origin).dot ray.dir / ray.dir.sqr_len

/-- Transcribed from `Ray::sphere_intersection`. -/
def Ray.sphere_intersection (ray : Ray) (position : Vec3) (radius : ℝ) :
    Option IntersectionResult :=
  let d := ray.origin - position
  let a := ray.dir.dot ray.dir
  let b := 2 * ray.dir.dot d
  let c := d.dot d - radius * radius
  match solve_quadratic a b c with
  | some roots => some (IntersectionResult.from_slice roots)
  | none => none

/-- Transcribed from `Ray::is_intersect_sphere`: the sign test on the
discriminant of the same quadratic. -/
def Ray.is_intersect_sphere (ray : Ray) (position : Vec3) (radius : ℝ) : Prop :=
  let d := ray.origin - position
  let a := ray.dir.dot ray.dir
  let b := 2 * ray.dir.dot d
  let c := d.dot d - radius * radius
  0 ≤ b * b - 4 * a * c

/-- Per-axis slab of `Ray::box_intersection`: the two plane crossing
parameters, ordered by the sign test `dir >= 0.0` exactly as in the source. -/
def slab (o d lo hi : ℝ) : ℝ × ℝ :=
  if 0 ≤ d then ((lo - o) / d, (hi - o) / d) else ((hi - o) / d, (lo - o) / d)

/-- X-axis slab of `Ray::box_intersection`. -/
def Ray.box_tx (ray : Ray) (bmin bmax : Vec3) : ℝ × ℝ :=
  slab ray.origin.x ray.dir.x bmin.x bmax.x

/-- Y-axis slab of `Ray::box_intersection`. -/
def Ray.box_ty (ray : Ray) (bmin bmax : Vec3) : ℝ × ℝ :=
  slab ray.origin.y ray.dir.y bmin.y bmax.y

/-- Z-axis slab of `Ray::box_intersection`. -/
def Ray.box_tz (ray : Ray) (bmin bmax : Vec3) : ℝ × ℝ :=
  slab ray.origin.z ray.dir.z bmin.z bmax.z

/-- Transcribed from `Ray::box_intersection` (slab method with early exits;
the in-place `tmin` / `tmax` updates become shadowing bindings). -/
def Ray.box_intersection (ray : Ray) (bmin bmax : Vec3) : Option IntersectionResult :=
  let tx := ray.box_tx bmin bmax
  let ty := ray.box_ty bmin bmax
  if tx.1 > ty.2 ∨ ty.1 > tx.2 then none
  else
    let tmin1 := if ty.1 > tx.1 then ty.1 else tx.1
    let tmax1 := if ty.2 < tx.2 then ty.2 else tx.2
    let tz := ray.box_tz bmin bmax
    if tmin1 > tz.2 ∨ tz.1 > tmax1 then none
    else
      let tmin2 := if tz.1 > tmin1 then tz.1 else tmin1
      let tmax2 := if tz.2 < tmax1 then tz.2 else tmax1
      if tmin2 < 1 ∧ tmax2 > 0 then some ⟨tmin2, tmax2⟩ else none

/-- Transcribed from `Ray::plane_intersection`: `u / v` with
`u = -(origin . n + d)` and `v = dir . n`. -/
def Ray.plane_intersection (ray : Ray) (plane : Plane) : ℝ :=
  let u := -(ray.origin.dot plane.normal + plane.d)
  let v := ray.dir.dot plane.normal
  u / v

/-- Axis unit vector of `Ray::cylinder_intersection`:
`(pb - pa).normalized().unwrap_or_else(|| Vec3::new(0.0, 1.0, 0.0))`. -/
def cyl_axis (pa pb : Vec3) : Vec3 :=
  ((pb - pa).normalized).getD ⟨0, 1, 0⟩

/-- The vector `vl = dir - va * dot(dir, va)` of `Ray::cylinder_intersection`. -/
def cyl_vl (ray : Ray) (pa pb : Vec3) : Vec3 :=
  ray.dir - (cyl_axis pa pb).scale (ray.dir.dot (cyl_axis pa pb))

/-- The vector `dpva = dp - va * dot(dp, va)` of `Ray::cylinder_intersection`,
with `dp = origin - pa`. -/
def cyl_dpva (ray : Ray) (pa pb : Vec3) : Vec3 :=
  (ray.origin - pa) - (cyl_axis pa pb).scale ((ray.origin - pa).dot (cyl_axis pa pb))

/-- Quadratic coefficient `A = sqr_len(vl)` of `Ray::cylinder_intersection`. -/
def cyl_a (ray : Ray) (pa pb : Vec3) : ℝ := (cyl_vl ray pa pb).sqr_len

/-- Quadratic coefficient `B = 2 * dot(vl, dpva)` of `Ray::cylinder_intersection`. -/
def cyl_b (ray : Ray) (pa pb : Vec3) : ℝ :=
  2 * (cyl_vl ray pa pb).dot (cyl_dpva ray pa pb)

/-- Quadratic coefficient `C = sqr_len(dpva) - r * r` of `Ray::cylinder_intersection`. -/
def cyl_c (ray : Ray) (pa pb : Vec3) (r : ℝ) : ℝ :=
  (cyl_dpva ray pa pb).sqr_len - r * r

/-- Body of the cap loop of the `Capped` branch of `Ray::cylinder_intersection`:
build the cap plane (the `.unwrap()` becomes `getD default`), intersect the
ray with it and merge the parameter when the hit lies inside the cap disk. -/
def cap_step (ray : Ray) (r : ℝ) (res : IntersectionResult) (cap : Vec3 × Vec3) :
    IntersectionResult :=
  let cap_plane := (Plane.from_normal_and_point cap.2 cap.1).getD default
  let t := ray.plane_intersection cap_plane
  if t > 0 then
    if cap.1.sqr_distance (ray.get_point t) ≤ r * r then res.merge t else res
  else res

/-- Body of the root loop of the `Finite` branch of `Ray::cylinder_intersection`:
keep a root when its point lies between the two cap planes. -/
def finite_step (ray : Ray) (pa pb : Vec3) (result : Option IntersectionResult)
    (root : ℝ) : Option IntersectionResult :=
  let int_point := ray.get_point root
  if 0 ≤ (int_point - pa).dot (cyl_axis pa pb) ∧ 0 ≤ (pb - int_point).dot (cyl_axis pa pb) then
    match result with
    | none => some ⟨root, root⟩
    | some result => some (result.merge root)
  else result

/-- Transcribed from `Ray::cylinder_intersection`. -/
def Ray.cylinder_intersection (ray : Ray) (pa pb : Vec3) (r : ℝ) (kind : CylinderKind) :
    Option IntersectionResult :=
  match solve_quadratic (cyl_a ray pa pb) (cyl_b ray pa pb) (cyl_c ray pa pb r) with
  | none => none
  | some cylinder_roots =>
    match kind with
    | CylinderKind.Infinite => some (IntersectionResult.from_slice cylinder_roots)
    | CylinderKind.Capped =>
      let result := IntersectionResult.from_slice cylinder_roots
      let result := [(pa, (cyl_axis pa pb).neg), (pb, cyl_axis pa pb)].foldl (cap_step ray r) result
      some (result.merge_slice cylinder_roots)
    | CylinderKind.Finite =>
      cylinder_roots.foldl (finite_step ray pa pb) none

/-- Transcribed from `Ray::try_eval_points`: keep each interval bound that
lies in `[0, 1]`, duplicating the surviving point when only one survives. -/
def Ray.try_eval_points (ray : Ray) (result : Option IntersectionResult) :
    Option (Vec3 × Vec3) :=
  match result with
  | none => none
  | some result =>
    let a := if 0 ≤ result.min ∧ result.min ≤ 1 then some (ray.get_point result.min) else none
    let b := if 0 ≤ result.max ∧ result.max ≤ 1 then some (ray.get_point result.max) else none
    match a with
    | none =>
      match b with
      | none => none
      | some b => some (b, b)
    | some a =>
      match b with
      | none => some (a, a)
      | some b => some (a, b)

/-- Transcribed from `Ray::sphere_intersection_points`. -/
def Ray.sphere_intersection_points (ray : Ray) (position : Vec3) (radius : ℝ) :
    Option (Vec3 × Vec3) :=
  ray.try_eval_points (ray.sphere_intersection position radius)

/-- Transcribed from `Ray::box_intersection_points`. -/
def Ray.box_intersection_points (ray : Ray) (bmin bmax : Vec3) : Option (Vec3 × Vec3) :=
  ray.try_eval_points (ray.box_intersection bmin bmax)

/-- Transcribed from `Ray::capsule_intersection`: finite cylinder plus two
sphere caps, united through `from_set`. -/
def Ray.capsule_intersection (ray : Ray) (pa pb : Vec3) (radius : ℝ) :
    Option (Vec3 × Vec3) :=
  let cylinder := ray.cylinder_intersection pa pb radius CylinderKind.Finite
  let cap_a := ray.sphere_intersection pa radius
  let cap_b := ray.sphere_intersection pb radius
  ray.try_eval_points (IntersectionResult.from_set [cylinder, cap_a, cap_b])

/-! Helper lemmas about the interval algebra. -/

theorem foldl_min_le_init (l : List ℝ) (a : ℝ) : l.foldl Min.min a ≤ a := by
  induction l generalizing a with
  | nil => simp
  | cons h t ih => exact le_trans (ih (Min.min a h)) (min_le_left _ _)

theorem foldl_min_le_mem : ∀ (l : List ℝ) (a x : ℝ), x ∈ l → l.foldl Min.min a ≤ x := by
  intro l
  induction l with
  | nil => intro a x hx; cases hx
  | cons h t ih =>
    intro a x hx
    simp only [List.foldl]
    rcases List.mem_cons.mp hx with rfl | hx
    · exact le_trans (foldl_min_le_init t (Min.min a x)) (min_le_right a x)
    · exact ih (Min.min a h) x hx

theorem foldl_min_mem_or_init (l : List ℝ) (a : ℝ) :
    l.foldl Min.min a = a ∨ l.foldl Min.min a ∈ l := by
  induction l generalizing a with
  | nil => left; rfl
  | cons h t ih =>
    rcases ih (Min.min a h) with he | hm
    · rcases min_choice a h with hc | hc
      · left; rw [List.foldl, he, hc]
      · right; rw [List.foldl, he, hc]; exact List.mem_cons_self _ _
    · right; exact List.mem_cons_of_mem _ hm

theorem foldl_max_init_le (l : List ℝ) (a : ℝ) : a ≤ l.foldl Max.max a := by
  induction l generalizing a with
  | nil => simp
  | cons h t ih => exact le_trans (le_max_left _ _) (ih (Max.max a h))

theorem foldl_max_mem_le : ∀ (l : List ℝ) (a x : ℝ), x ∈ l → x ≤ l.foldl Max.max a := by
  intro l
  induction l with
  | nil => intro a x hx; cases hx
  | cons h t ih =>
    intro a x hx
    simp only [List.foldl]
    rcases List.mem_cons.mp hx with rfl | hx
    · exact le_trans (le_max_right a x) (foldl_max_init_le t (Max.max a x))
    · exact ih (Max.max a h) x hx

theorem foldl_max_mem_or_init (l : List ℝ) (a : ℝ) :
    l.foldl Max.max a = a ∨ l.foldl Max.max a ∈ l := by
  induction l generalizing a with
  | nil => left; rfl
  | cons h t ih =>
    rcases ih (Max.max a h) with he | hm
    · rcases max_choice a h with hc | hc
      · left; rw [List.foldl, he, hc]
      · right; rw [List.foldl, he, hc]; exact List.mem_cons_self _ _
    · right; exact List.mem_cons_of_mem _ hm

theorem merge_wf {i : IntersectionResult} {p : ℝ} (h : i.min ≤ i.max) :
    (i.merge p).min ≤ (i.merge p).max := by
  simp only [IntersectionResult.merge]
  split_ifs <;> push_neg at * <;> linarith

theorem merge_slice_wf {i : IntersectionResult} (h : i.min ≤ i.max) (params : List ℝ) :
    (i.merge_slice params).min ≤ (i.merge_slice params).max := by
  simp only [IntersectionResult.merge_slice]
  induction params generalizing i with
  | nil => exact h
  | cons q t ih => exact ih (merge_wf h)

theorem merge_min_le {i : IntersectionResult} {p : ℝ} : (i.merge p).min ≤ i.min := by
  simp only [IntersectionResult.merge]
  split_ifs with h1
  · exact le_of_lt h1
  · exact le_refl _

theorem merge_le_max {i : IntersectionResult} {p : ℝ} : i.max ≤ (i.merge p).max := by
  simp only [IntersectionResult.merge]
  split_ifs <;> first | exact le_refl _ | linarith

theorem merge_of_inside {i : IntersectionResult} {p : ℝ} (h1 : i.min ≤ p) (h2 : p ≤ i.max) :
    i.merge p = i := by
  simp only [IntersectionResult.merge]
  rw [if_neg (not_lt.mpr h1), if_neg (not_lt.mpr h2)]

theorem merge_two (a w : IntersectionResult) (hw : w.min ≤ w.max) :
    (a.merge w.min).merge w.max = ⟨Min.min a.min w.min, Max.max a.max w.max⟩ := by
  simp only [IntersectionResult.merge, IntersectionResult.mk.injEq]
  constructor
  · rw [min_def]; split_ifs <;> linarith
  · rw [max_def]; split_ifs <;> linarith

/-- All present members of a list of optional intervals are well formed. -/
def wfPresent (l : List (Option IntersectionResult)) : Prop :=
  ∀ v : IntersectionResult, some v ∈ l → v.min ≤ v.max

theorem wfPresent_of_cons {x : Option IntersectionResult}
    {l : List (Option IntersectionResult)} (h : wfPresent (x :: l)) : wfPresent l :=
  fun v hv => h v (List.mem_cons_of_mem _ hv)

theorem from_set_fold_some (l : List (Option IntersectionResult)) (a : IntersectionResult)
    (ha : a.min ≤ a.max) (hl : wfPresent l) :
    ∃ i, l.foldl IntersectionResult.from_set_step (some a) = some i ∧
      i.min ≤ i.max ∧ i.min ≤ a.min ∧ a.max ≤ i.max ∧
      (∀ v : IntersectionResult, some v ∈ l → i.min ≤ v.min ∧ v.max ≤ i.max) ∧
      (i.min = a.min ∨ ∃ v : IntersectionResult, some v ∈ l ∧ i.min = v.min) ∧
      (i.max = a.max ∨ ∃ v : IntersectionResult, some v ∈ l ∧ i.max = v.max) := by
  induction l generalizing a with
  | nil =>
    exact ⟨a, rfl, ha, le_refl _, le_refl _, by simp, Or.inl rfl, Or.inl rfl⟩
  | cons x t ih =>
    cases x with
    | none =>
      obtain ⟨i, hi, hwf, hmin, hmax, hbound, hattmin, hattmax⟩ :=
        ih a ha (wfPresent_of_cons hl)
      refine ⟨i, hi, hwf, hmin, hmax, ?_, ?_, ?_⟩
      · intro v hv
        rcases List.mem_cons.mp hv with hv | hv
        · cases hv
        · exact hbound v hv
      · rcases hattmin with h | ⟨v, hv, he⟩
        · exact Or.inl h
        · exact Or.inr ⟨v, List.mem_cons_of_mem _ hv, he⟩
      · rcases hattmax with h | ⟨v, hv, he⟩
        · exact Or.inl h
        · exact Or.inr ⟨v, List.mem_cons_of_mem _ hv, he⟩
    | some w =>
      have hw : w.min ≤ w.max := hl w (List.mem_cons_self _ _)
      have hstep : IntersectionResult.from_set_step (some a) (some w) =
          some ⟨Min.min a.min w.min, Max.max a.max w.max⟩ := by
        simp only [IntersectionResult.from_set_step]
        rw [merge_two a w hw]
      have hB : (Min.min a.min w.min) ≤ (Max.max a.max w.max) :=
        le_trans (min_le_left _ _) (le_trans ha (le_max_left _ _))
      obtain ⟨i, hi, hwf, hmin, hmax, hbound, hattmin, hattmax⟩ :=
        ih ⟨Min.min a.min w.min, Max.max a.max w.max⟩ hB (wfPresent_of_cons hl)
      refine ⟨i, ?_, hwf, le_trans hmin (min_le_left _ _),
        le_trans (le_max_left _ _) hmax, ?_, ?_, ?_⟩
      · rw [List.foldl, hstep]; exact hi
      · intro v hv
        rcases List.mem_cons.mp hv with hv | hv
        · cases hv
          exact ⟨le_trans hmin (min_le_right _ _), le_trans (le_max_right _ _) hmax⟩
        · exact hbound v hv
      · rcases hattmin with h | ⟨v, hv, he⟩
        · rcases min_choice a.min w.min with hc | hc
          · exact Or.inl (h.trans hc)
          · exact Or.inr ⟨w, List.mem_cons_self _ _, h.trans hc⟩
        · exact Or.inr ⟨v, List.mem_cons_of_mem _ hv, he⟩
      · rcases hattmax with h | ⟨v, hv, he⟩
        · rcases max_choice a.max w.max with hc | hc
          · exact Or.inl (h.trans hc)
          · exact Or.inr ⟨w, List.mem_cons_self _ _, h.trans hc⟩
        · exact Or.inr ⟨v, List.mem_cons_of_mem _ hv, he⟩

theorem from_set_fold_some_ne_none (l : List (Option IntersectionResult))
    (a : IntersectionResult) :
    l.foldl IntersectionResult.from_set_step (some a) ≠ none := by
  induction l generalizing a with
  | nil => simp
  | cons x t ih =>
    cases x with
    | none => exact ih a
    | some w => exact ih _

theorem from_set_none_iff (l : List (Option IntersectionResult)) :
    IntersectionResult.from_set l = none ↔ ∀ x ∈ l, x = none := by
  simp only [IntersectionResult.from_set]
  induction l with
  | nil => simp
  | cons x t ih =>
    cases x with
    | none => simpa using ih
    | some w =>
      simp only [List.foldl, IntersectionResult.from_set_step]
      constructor
      · intro h; exact absurd h (from_set_fold_some_ne_none t w)
      · intro h; exact absurd (h (some w) (List.mem_cons_self _ _)) (by simp)

theorem from_set_some_spec (l : List (Option IntersectionResult)) (hl : wfPresent l)
    (i : IntersectionResult) (h : IntersectionResult.from_set l = some i) :
    i.min ≤ i.max ∧
    (∀ v : IntersectionResult, some v ∈ l → i.min ≤ v.min ∧ v.max ≤ i.max) ∧
    (∃ v : IntersectionResult, some v ∈ l ∧ i.min = v.min) ∧
    (∃ v : IntersectionResult, some v ∈ l ∧ i.max = v.max) := by
  induction l with
  | nil => cases h
  | cons x t ih =>
    cases x with
    | none =>
      have h' : IntersectionResult.from_set t = some i := h
      obtain ⟨hwf, hbound, hattmin, hattmax⟩ := ih (wfPresent_of_cons hl) h'
      refine ⟨hwf, ?_, ?_, ?_⟩
      · intro v hv
        rcases List.mem_cons.mp hv with hv | hv
        · cases hv
        · exact hbound v hv
      · obtain ⟨v, hv, he⟩ := hattmin
        exact ⟨v, List.mem_cons_of_mem _ hv, he⟩
      · obtain ⟨v, hv, he⟩ := hattmax
        exact ⟨v, List.mem_cons_of_mem _ hv, he⟩
    | some a =>
      have ha : a.min ≤ a.max := hl a (List.mem_cons_self _ _)
      obtain ⟨j, hj, hwf, hmin, hmax, hbound, hattmin, hattmax⟩ :=
        from_set_fold_some t a ha (wfPresent_of_cons hl)
      have h' : t.foldl IntersectionResult.from_set_step (some a) = some i := h
      have hij : j = i := by rw [hj] at h'; exact Option.some.inj h'
      subst hij
      refine ⟨hwf, ?_, ?_, ?_⟩
      · intro v hv
        rcases List.mem_cons.mp hv with hv | hv
        · cases hv; exact ⟨hmin, hmax⟩
        · exact hbound v hv
      · rcases hattmin with he | ⟨v, hv, he⟩
        · exact ⟨a, List.mem_cons_self _ _, he⟩
        · exact ⟨v, List.mem_cons_of_mem _ hv, he⟩
      · rcases hattmax with he | ⟨v, hv, he⟩
        · exact ⟨a, List.mem_cons_self _ _, he⟩
        · exact ⟨v, List.mem_cons_of_mem _ hv, he⟩

/-! The claim theorems. -/

theorem solve_quadratic_isSome_iff (a b c : ℝ) :
    (solve_quadratic a b c).isSome ↔ 0 ≤ b * b - 4 * a * c := by
  simp only [solve_quadratic]
  split_ifs with h ha hb
  · simp [not_le.mpr h]
  all_goals simp [not_lt.mp h]

/-- Claim C1: for every ray, sphere center and radius, the boolean test
`is_intersect_sphere` holds exactly when `sphere_intersection` returns a
result, both being gated by non-negativity of the discriminant of the shared
quadratic. -/
theorem claim1_sphere_bool_agrees (ray : Ray) (position : Vec3) (radius : ℝ) :
    ray.is_intersect_sphere position radius ↔
      (ray.sphere_intersection position radius).isSome := by
  simp only [Ray.is_intersect_sphere, Ray.sphere_intersection]
  rw [← solve_quadratic_isSome_iff]
  cases hq : solve_quadratic (ray.dir.dot ray.dir) (2 * ray.dir.dot (ray.origin - position))
      ((ray.origin - position).dot (ray.origin - position) - radius * radius) <;>
    simp [hq]

/-- Claim C2: `from_set` returns the bounding interval of the union of the
present entries: it is absent exactly when all entries are absent, its bounds
enclose every present entry and are attained by one of them, and it sends
`[some {1,3}, none, some {2,4}]` to `{1,4}` and `[none, none]` to `none`. -/
theorem claim2_from_set_union :
    (∀ l : List (Option IntersectionResult),
      (IntersectionResult.from_set l = none ↔ ∀ x ∈ l, x = none)) ∧
    (∀ (l : List (Option IntersectionResult)) (i : IntersectionResult), wfPresent l →
      IntersectionResult.from_set l = some i →
      ((∀ v : IntersectionResult, some v ∈ l → i.min ≤ v.min ∧ v.max ≤ i.max) ∧
       (∃ v : IntersectionResult, some v ∈ l ∧ i.min = v.min) ∧
       (∃ v : IntersectionResult, some v ∈ l ∧ i.max = v.max))) ∧
    IntersectionResult.from_set [some ⟨1, 3⟩, none, some ⟨2, 4⟩] = some ⟨1, 4⟩ ∧
    IntersectionResult.from_set [none, none] = none := by
  refine ⟨from_set_none_iff, ?_, ?_, ?_⟩
  · intro l i hl h
    obtain ⟨_, hbound, hattmin, hattmax⟩ := from_set_some_spec l hl i h
    exact ⟨hbound, hattmin, hattmax⟩
  · simp only [IntersectionResult.from_set, List.foldl, IntersectionResult.from_set_step,
      IntersectionResult.merge, IntersectionResult.mk.injEq]
    norm_num
  · rfl

/-- Claim C2 witness: the general part of `claim2_from_set_union` instantiated
at the concrete example list. -/
theorem claim2_witness :
    (∀ v : IntersectionResult,
      some v ∈ [some ⟨1, 3⟩, none, some ⟨2, 4⟩] →
        (IntersectionResult.mk 1 4).min ≤ v.min ∧ v.max ≤ (IntersectionResult.mk 1 4).max) ∧
    (∃ v : IntersectionResult,
      some v ∈ [some ⟨1, 3⟩, none, some ⟨2, 4⟩] ∧ (IntersectionResult.mk 1 4).min = v.min) ∧
    (∃ v : IntersectionResult,
      some v ∈ [some ⟨1, 3⟩, none, some ⟨2, 4⟩] ∧ (IntersectionResult.mk 1 4).max = v.max) := by
  refine claim2_from_set_union.2.1 [some ⟨1, 3⟩, none, some ⟨2, 4⟩] ⟨1, 4⟩ ?_ ?_
  · intro v hv
    simp only [List.mem_cons, List.not_mem_nil, or_false, Option.some.injEq,
      reduceCtorEq, false_or] at hv
    rcases hv with rfl | rfl <;> norm_num
  · exact claim2_from_set_union.2.2.1

/-- Claim C3 counterexample: on the empty slice `from_slice` returns the
sentinel `{min = f32::MAX, max = -f32::MAX}`; the minimum is the largest
finite `f32`, not the IEEE `+inf` claimed by the spec (which would be
strictly greater than `f32::MAX`). -/
theorem claim3_counterexample :
    IntersectionResult.from_slice [] = ⟨f32MAX, -f32MAX⟩ ∧
    ¬ f32MAX < (IntersectionResult.from_slice []).min := by
  exact ⟨rfl, lt_irrefl _⟩

/-- Claim C3 (amended): on a non-empty slice of roots within the finite `f32`
range, `from_slice` returns the interval from the least to the greatest root;
on the empty slice it returns the sentinel `{min = f32::MAX, max = -f32::MAX}`
(the extreme finite `f32` values, not the IEEE infinities). -/
theorem claim3_from_slice_min_max :
    (∀ roots : List ℝ, roots ≠ [] → (∀ x ∈ roots, -f32MAX ≤ x ∧ x ≤ f32MAX) →
      ((IntersectionResult.from_slice roots).min ∈ roots ∧
       (∀ x ∈ roots, (IntersectionResult.from_slice roots).min ≤ x) ∧
       (IntersectionResult.from_slice roots).max ∈ roots ∧
       (∀ x ∈ roots, x ≤ (IntersectionResult.from_slice roots).max))) ∧
    IntersectionResult.from_slice [2, -1, 5] = ⟨-1, 5⟩ ∧
    IntersectionResult.from_slice [] = ⟨f32MAX, -f32MAX⟩ := by
  refine ⟨?_, ?_, rfl⟩
  · intro roots hne hbound
    obtain ⟨x0, hx0⟩ := List.exists_mem_of_ne_nil roots hne
    simp only [IntersectionResult.from_slice]
    refine ⟨?_, fun x hx => foldl_min_le_mem roots f32MAX x hx, ?_,
      fun x hx => foldl_max_mem_le roots (-f32MAX) x hx⟩
    · rcases foldl_min_mem_or_init roots f32MAX with he | hm
      · have h1 : roots.foldl Min.min f32MAX ≤ x0 := foldl_min_le_mem roots f32MAX x0 hx0
        have h2 : x0 ≤ roots.foldl Min.min f32MAX := by rw [he]; exact (hbound x0 hx0).2
        rw [le_antisymm h1 h2]
        exact hx0
      · exact hm
    · rcases foldl_max_mem_or_init roots (-f32MAX) with he | hm
      · have h1 : x0 ≤ roots.foldl Max.max (-f32MAX) := foldl_max_mem_le roots (-f32MAX) x0 hx0
        have h2 : roots.foldl Max.max (-f32MAX) ≤ x0 := by rw [he]; exact (hbound x0 hx0).1
        rw [le_antisymm h2 h1]
        exact hx0
      · exact hm
  · simp only [IntersectionResult.from_slice, List.foldl, IntersectionResult.mk.injEq]
    constructor <;> norm_num [f32MAX, min_def, max_def]

/-- Claim C3 witness: the amended claim instantiated on the slice
`[2, -1, 5]` from the spec example. -/
theorem claim3_witness :
    (IntersectionResult.from_slice [2, -1, 5]).min ∈ ([2, -1, 5] : List ℝ) ∧
    (∀ x ∈ ([2, -1, 5] : List ℝ), (IntersectionResult.from_slice [2, -1, 5]).min ≤ x) ∧
    (IntersectionResult.from_slice [2, -1, 5]).max ∈ ([2, -1, 5] : List ℝ) ∧
    (∀ x ∈ ([2, -1, 5] : List ℝ), x ≤ (IntersectionResult.from_slice [2, -1, 5]).max) := by
  refine claim3_from_slice_min_max.1 [2, -1, 5] (by simp) ?_
  intro x hx
  simp only [List.mem_cons, List.not_mem_nil, or_false] at hx
  rcases hx with rfl | rfl | rfl <;> constructor <;> norm_num [f32MAX]

/-- Claim C9: `from_slice` on a non-empty slice establishes `min <= max`, and
`merge`, `merge_slice` and the `from_set` fold all preserve it. -/
theorem claim9_wf_invariant :
    (∀ roots : List ℝ, roots ≠ [] →
      (IntersectionResult.from_slice roots).min ≤ (IntersectionResult.from_slice roots).max) ∧
    (∀ (i : IntersectionResult) (p : ℝ), i.min ≤ i.max →
      (i.merge p).min ≤ (i.merge p).max) ∧
    (∀ (i : IntersectionResult) (params : List ℝ), i.min ≤ i.max →
      (i.merge_slice params).min ≤ (i.merge_slice params).max) ∧
    (∀ (l : List (Option IntersectionResult)) (i : IntersectionResult), wfPresent l →
      IntersectionResult.from_set l = some i → i.min ≤ i.max) := by
  refine ⟨?_, fun i p h => merge_wf h, fun i params h => merge_slice_wf h params,
    fun l i hl h => (from_set_some_spec l hl i h).1⟩
  intro roots hne
  obtain ⟨x0, hx0⟩ := List.exists_mem_of_ne_nil roots hne
  exact le_trans (foldl_min_le_mem roots f32MAX x0 hx0)
    (foldl_max_mem_le roots (-f32MAX) x0 hx0)

/-- Claim C9 witness: the invariant theorem instantiated on concrete data. -/
theorem claim9_witness :
    (IntersectionResult.from_slice [2, -1, 5]).min ≤
      (IntersectionResult.from_slice [2, -1, 5]).max ∧
    ((IntersectionResult.mk 1 3).merge 7).min ≤ ((IntersectionResult.mk 1 3).merge 7).max :=
  ⟨claim9_wf_invariant.1 [2, -1, 5] (by simp),
   claim9_wf_invariant.2.1 ⟨1, 3⟩ 7 (by norm_num)⟩

theorem if_gt_eq_max (a b : ℝ) : (if b > a then b else a) = Max.max a b := by
  split_ifs with h
  · exact (max_eq_right (le_of_lt h)).symm
  · exact (max_eq_left (not_lt.mp h)).symm

theorem if_lt_eq_min (a b : ℝ) : (if b < a then b else a) = Min.min a b := by
  split_ifs with h
  · exact (min_eq_right (le_of_lt h)).symm
  · exact (min_eq_left (not_lt.mp h)).symm

/-- Claim C4: the box slab test returns `none` as soon as the running
interval misses a per-axis slab, and otherwise returns the intersection of
the three per-axis slab intervals exactly when that interval satisfies
`tmin < 1` and `tmax > 0`. -/
theorem claim4_box_slab (ray : Ray) (bmin bmax : Vec3) :
    ((ray.box_tx bmin bmax).1 > (ray.box_ty bmin bmax).2 ∨
        (ray.box_ty bmin bmax).1 > (ray.box_tx bmin bmax).2 →
      ray.box_intersection bmin bmax = none) ∧
    (Max.max (ray.box_tx bmin bmax).1 (ray.box_ty bmin bmax).1 > (ray.box_tz bmin bmax).2 ∨
        (ray.box_tz bmin bmax).1 >
          Min.min (ray.box_tx bmin bmax).2 (ray.box_ty bmin bmax).2 →
      ray.box_intersection bmin bmax = none) ∧
    (¬ ((ray.box_tx bmin bmax).1 > (ray.box_ty bmin bmax).2 ∨
        (ray.box_ty bmin bmax).1 > (ray.box_tx bmin bmax).2) →
     ¬ (Max.max (ray.box_tx bmin bmax).1 (ray.box_ty bmin bmax).1 >
          (ray.box_tz bmin bmax).2 ∨
        (ray.box_tz bmin bmax).1 >
          Min.min (ray.box_tx bmin bmax).2 (ray.box_ty bmin bmax).2) →
      ray.box_intersection bmin bmax =
        if Max.max (Max.max (ray.box_tx bmin bmax).1 (ray.box_ty bmin bmax).1)
             (ray.box_tz bmin bmax).1 < 1 ∧
           Min.min (Min.min (ray.box_tx bmin bmax).2 (ray.box_ty bmin bmax).2)
             (ray.box_tz bmin bmax).2 > 0
        then some ⟨Max.max (Max.max (ray.box_tx bmin bmax).1 (ray.box_ty bmin bmax).1)
                     (ray.box_tz bmin bmax).1,
                   Min.min (Min.min (ray.box_tx bmin bmax).2 (ray.box_ty bmin bmax).2)
                     (ray.box_tz bmin bmax).2⟩
        else none) := by
  refine ⟨?_, ?_, ?_⟩
  · intro h
    simp only [Ray.box_intersection]
    rw [if_pos h]
  · intro h
    simp only [Ray.box_intersection]
    by_cases h1 : (ray.box_tx bmin bmax).1 > (ray.box_ty bmin bmax).2 ∨
        (ray.box_ty bmin bmax).1 > (ray.box_tx bmin bmax).2
    · rw [if_pos h1]
    · rw [if_neg h1]
      simp only [if_gt_eq_max, if_lt_eq_min]
      rw [if_pos h]
  · intro h1 h2
    simp only [Ray.box_intersection]
    rw [if_neg h1]
    simp only [if_gt_eq_max, if_lt_eq_min]
    rw [if_neg h2]

/-- Claim C4 witness: the characterization applied to the ray with origin
`0` and direction `(1, 1, 1)` against the unit box; every slab interval is
`[0, 1]`, no early exit fires, and the final interval `[0, 1]` passes the
`tmin < 1 and tmax > 0` acceptance test. -/
theorem claim4_witness :
    Ray.box_intersection ⟨⟨0, 0, 0⟩, ⟨1, 1, 1⟩⟩ ⟨0, 0, 0⟩ ⟨1, 1, 1⟩ =
      some ⟨0, 1⟩ := by
  have h := claim4_box_slab ⟨⟨0, 0, 0⟩, ⟨1, 1, 1⟩⟩ ⟨0, 0, 0⟩ ⟨1, 1, 1⟩
  have htx : Ray.box_tx ⟨⟨0, 0, 0⟩, ⟨1, 1, 1⟩⟩ ⟨0, 0, 0⟩ ⟨1, 1, 1⟩ = (0, 1) := by
    norm_num [Ray.box_tx, slab]
  have hty : Ray.box_ty ⟨⟨0, 0, 0⟩, ⟨1, 1, 1⟩⟩ ⟨0, 0, 0⟩ ⟨1, 1, 1⟩ = (0, 1) := by
    norm_num [Ray.box_ty, slab]
  have htz : Ray.box_tz ⟨⟨0, 0, 0⟩, ⟨1, 1, 1⟩⟩ ⟨0, 0, 0⟩ ⟨1, 1, 1⟩ = (0, 1) := by
    norm_num [Ray.box_tz, slab]
  have h3 := h.2.2
  rw [htx, hty, htz] at h3
  norm_num at h3
  exact h3

/-- Claim C5: `try_eval_points` keeps an interval bound only when it lies in
`[0, 1]`: both bounds valid gives both points, exactly one valid duplicates
its point, none valid (or an absent interval) gives `none`. -/
theorem claim5_try_eval_points (ray : Ray) :
    ray.try_eval_points none = none ∧
    ∀ i : IntersectionResult,
      ((0 ≤ i.min ∧ i.min ≤ 1) → (0 ≤ i.max ∧ i.max ≤ 1) →
        ray.try_eval_points (some i) = some (ray.get_point i.min, ray.get_point i.max)) ∧
      ((0 ≤ i.min ∧ i.min ≤ 1) → ¬ (0 ≤ i.max ∧ i.max ≤ 1) →
        ray.try_eval_points (some i) = some (ray.get_point i.min, ray.get_point i.min)) ∧
      (¬ (0 ≤ i.min ∧ i.min ≤ 1) → (0 ≤ i.max ∧ i.max ≤ 1) →
        ray.try_eval_points (some i) = some (ray.get_point i.max, ray.get_point i.max)) ∧
      (¬ (0 ≤ i.min ∧ i.min ≤ 1) → ¬ (0 ≤ i.max ∧ i.max ≤ 1) →
        ray.try_eval_points (some i) = none) := by
  refine ⟨rfl, fun i => ⟨?_, ?_, ?_, ?_⟩⟩ <;> intro h1 h2 <;>
    simp only [Ray.try_eval_points] <;>
    first
    | rw [if_pos h1, if_pos h2]
    | rw [if_pos h1, if_neg h2]
    | rw [if_neg h1, if_pos h2]
    | rw [if_neg h1, if_neg h2]

/-- Claim C5 witness: the characterization applied to the interval
`[0, 1/2]` on a concrete ray. -/
theorem claim5_witness :
    Ray.try_eval_points ⟨⟨0, 0, 0⟩, ⟨1, 0, 0⟩⟩ (some ⟨0, 1 / 2⟩) =
      some (Ray.get_point ⟨⟨0, 0, 0⟩, ⟨1, 0, 0⟩⟩ (IntersectionResult.mk 0 (1 / 2)).min,
            Ray.get_point ⟨⟨0, 0, 0⟩, ⟨1, 0, 0⟩⟩ (IntersectionResult.mk 0 (1 / 2)).max) :=
  ((claim5_try_eval_points ⟨⟨0, 0, 0⟩, ⟨1, 0, 0⟩⟩).2 ⟨0, 1 / 2⟩).1
    (by norm_num) (by norm_num)

theorem Vec3.sub_def (a b : Vec3) : a - b = ⟨a.x - b.x, a.y - b.y, a.z - b.z⟩ := rfl

theorem Vec3.add_def (a b : Vec3) : a + b = ⟨a.x + b.x, a.y + b.y, a.z + b.z⟩ := rfl

theorem normalized_eval (v : Vec3) (k : ℝ) (hk : 0 < k) (hs : v.sqr_len = k ^ 2)
    (hke : f32EPS ≤ k) : v.normalized = some (v.scale (1 / k)) := by
  have hlen : v.len = k := by rw [Vec3.len, hs]; exact Real.sqrt_sq hk.le
  rw [Vec3.normalized, hlen, if_pos hke]

theorem solve_quadratic_shape (a b c : ℝ) (l : List ℝ)
    (h : solve_quadratic a b c = some l) :
    l = [] ∨ (∃ x, l = [x]) ∨ (∃ x y, l = [x, y]) := by
  unfold solve_quadratic at h
  by_cases h1 : b * b - 4 * a * c < 0
  · rw [if_pos h1] at h; cases h
  · rw [if_neg h1] at h
    by_cases h2 : a ≠ 0
    · rw [if_pos h2] at h
      exact Or.inr (Or.inr ⟨_, _, (Option.some.inj h).symm⟩)
    · rw [if_neg h2] at h
      by_cases h3 : b ≠ 0
      · rw [if_pos h3] at h
        exact Or.inr (Or.inl ⟨_, (Option.some.inj h).symm⟩)
      · rw [if_neg h3] at h
        exact Or.inl (Option.some.inj h).symm

theorem merge_point (x y : ℝ) :
    (⟨x, x⟩ : IntersectionResult).merge y = ⟨Min.min x y, Max.max x y⟩ := by
  simp only [IntersectionResult.merge]
  rw [if_lt_eq_min, if_gt_eq_max]

/-! Explicit values of the `Finite` root loop on the root lists the solver
can produce. -/

theorem finite_fold_single_pos (ray : Ray) (pa pb : Vec3) (x : ℝ)
    (hx : 0 ≤ (ray.get_point x - pa).dot (cyl_axis pa pb) ∧
      0 ≤ (pb - ray.get_point x).dot (cyl_axis pa pb)) :
    [x].foldl (finite_step ray pa pb) none = some ⟨x, x⟩ := by
  simp only [List.foldl, finite_step, if_pos hx]

theorem finite_fold_single_neg (ray : Ray) (pa pb : Vec3) (x : ℝ)
    (hx : ¬ (0 ≤ (ray.get_point x - pa).dot (cyl_axis pa pb) ∧
      0 ≤ (pb - ray.get_point x).dot (cyl_axis pa pb))) :
    [x].foldl (finite_step ray pa pb) none = none := by
  simp only [List.foldl, finite_step, if_neg hx]

theorem finite_fold_pair_pp (ray : Ray) (pa pb : Vec3) (x y : ℝ)
    (hx : 0 ≤ (ray.get_point x - pa).dot (cyl_axis pa pb) ∧
      0 ≤ (pb - ray.get_point x).dot (cyl_axis pa pb))
    (hy : 0 ≤ (ray.get_point y - pa).dot (cyl_axis pa pb) ∧
      0 ≤ (pb - ray.get_point y).dot (cyl_axis pa pb)) :
    [x, y].foldl (finite_step ray pa pb) none = some ⟨Min.min x y, Max.max x y⟩ := by
  simp only [List.foldl, finite_step, if_pos hx, if_pos hy]
  rw [merge_point]

theorem finite_fold_pair_pn (ray : Ray) (pa pb : Vec3) (x y : ℝ)
    (hx : 0 ≤ (ray.get_point x - pa).dot (cyl_axis pa pb) ∧
      0 ≤ (pb - ray.get_point x).dot (cyl_axis pa pb))
    (hy : ¬ (0 ≤ (ray.get_point y - pa).dot (cyl_axis pa pb) ∧
      0 ≤ (pb - ray.get_point y).dot (cyl_axis pa pb))) :
    [x, y].foldl (finite_step ray pa pb) none = some ⟨x, x⟩ := by
  simp only [List.foldl, finite_step, if_pos hx, if_neg hy]

theorem finite_fold_pair_np (ray : Ray) (pa pb : Vec3) (x y : ℝ)
    (hx : ¬ (0 ≤ (ray.get_point x - pa).dot (cyl_axis pa pb) ∧
      0 ≤ (pb - ray.get_point x).dot (cyl_axis pa pb)))
    (hy : 0 ≤ (ray.get_point y - pa).dot (cyl_axis pa pb) ∧
      0 ≤ (pb - ray.get_point y).dot (cyl_axis pa pb)) :
    [x, y].foldl (finite_step ray pa pb) none = some ⟨y, y⟩ := by
  simp only [List.foldl, finite_step, if_neg hx, if_pos hy]

theorem finite_fold_pair_nn (ray : Ray) (pa pb : Vec3) (x y : ℝ)
    (hx : ¬ (0 ≤ (ray.get_point x - pa).dot (cyl_axis pa pb) ∧
      0 ≤ (pb - ray.get_point x).dot (cyl_axis pa pb)))
    (hy : ¬ (0 ≤ (ray.get_point y - pa).dot (cyl_axis pa pb) ∧
      0 ≤ (pb - ray.get_point y).dot (cyl_axis pa pb))) :
    [x, y].foldl (finite_step ray pa pb) none = none := by
  simp only [List.foldl, finite_step, if_neg hx, if_neg hy]

/-- Claim C6: the `Finite` cylinder keeps exactly those lateral-surface roots
whose point lies between the two cap planes, the returned interval is built
solely from the surviving roots (bounds are surviving roots and enclose every
surviving root), and the result is `none` exactly when no root survives. -/
theorem claim6_finite_cylinder (ray : Ray) (pa pb : Vec3) (r : ℝ) (roots : List ℝ)
    (hq : solve_quadratic (cyl_a ray pa pb) (cyl_b ray pa pb) (cyl_c ray pa pb r) =
      some roots) :
    (ray.cylinder_intersection pa pb r CylinderKind.Finite = none ↔
      ∀ t ∈ roots, ¬ (0 ≤ (ray.get_point t - pa).dot (cyl_axis pa pb) ∧
        0 ≤ (pb - ray.get_point t).dot (cyl_axis pa pb))) ∧
    (∀ i, ray.cylinder_intersection pa pb r CylinderKind.Finite = some i →
      i.min ∈ roots ∧
      (0 ≤ (ray.get_point i.min - pa).dot (cyl_axis pa pb) ∧
        0 ≤ (pb - ray.get_point i.min).dot (cyl_axis pa pb)) ∧
      i.max ∈ roots ∧
      (0 ≤ (ray.get_point i.max - pa).dot (cyl_axis pa pb) ∧
        0 ≤ (pb - ray.get_point i.max).dot (cyl_axis pa pb)) ∧
      ∀ t ∈ roots, (0 ≤ (ray.get_point t - pa).dot (cyl_axis pa pb) ∧
        0 ≤ (pb - ray.get_point t).dot (cyl_axis pa pb)) → i.min ≤ t ∧ t ≤ i.max) := by
  simp only [Ray.cylinder_intersection, hq]
  rcases solve_quadratic_shape _ _ _ _ hq with rfl | ⟨x, rfl⟩ | ⟨x, y, rfl⟩
  · constructor
    · simp
    · intro i hi; simp at hi
  · by_cases hx : 0 ≤ (ray.get_point x - pa).dot (cyl_axis pa pb) ∧
        0 ≤ (pb - ray.get_point x).dot (cyl_axis pa pb)
    · rw [finite_fold_single_pos ray pa pb x hx]
      constructor
      · constructor
        · intro h; cases h
        · intro h; exact absurd hx (h x (List.mem_cons_self x []))
      · intro i hi
        rcases Option.some.inj hi with rfl
        refine ⟨List.mem_cons_self x [], hx, List.mem_cons_self x [], hx, ?_⟩
        intro t ht _
        rcases List.mem_cons.mp ht with rfl | ht
        · exact ⟨le_refl _, le_refl _⟩
        · cases ht
    · rw [finite_fold_single_neg ray pa pb x hx]
      constructor
      · constructor
        · intro _ t ht
          rcases List.mem_cons.mp ht with rfl | ht
          · exact hx
          · cases ht
        · intro _; rfl
      · intro i hi; cases hi
  · by_cases hx : 0 ≤ (ray.get_point x - pa).dot (cyl_axis pa pb) ∧
        0 ≤ (pb - ray.get_point x).dot (cyl_axis pa pb) <;>
      by_cases hy : 0 ≤ (ray.get_point y - pa).dot (cyl_axis pa pb) ∧
        0 ≤ (pb - ray.get_point y).dot (cyl_axis pa pb)
    · rw [finite_fold_pair_pp ray pa pb x y hx hy]
      constructor
      · constructor
        · intro h; cases h
        · intro h; exact absurd hx (h x (List.mem_cons_self x [y]))
      · intro i hi
        rcases Option.some.inj hi with rfl
        have hmem : (⟨Min.min x y, Max.max x y⟩ : IntersectionResult).min ∈ [x, y] := by
          show Min.min x y ∈ [x, y]
          rcases min_choice x y with hc | hc <;> rw [hc] <;> simp
        have hmem2 : (⟨Min.min x y, Max.max x y⟩ : IntersectionResult).max ∈ [x, y] := by
          show Max.max x y ∈ [x, y]
          rcases max_choice x y with hc | hc <;> rw [hc] <;> simp
        have hpmin : 0 ≤ (ray.get_point (Min.min x y) - pa).dot (cyl_axis pa pb) ∧
            0 ≤ (pb - ray.get_point (Min.min x y)).dot (cyl_axis pa pb) := by
          rcases min_choice x y with hc | hc <;> rw [hc]
          · exact hx
          · exact hy
        have hpmax : 0 ≤ (ray.get_point (Max.max x y) - pa).dot (cyl_axis pa pb) ∧
            0 ≤ (pb - ray.get_point (Max.max x y)).dot (cyl_axis pa pb) := by
          rcases max_choice x y with hc | hc <;> rw [hc]
          · exact hx
          · exact hy
        refine ⟨hmem, hpmin, hmem2, hpmax, ?_⟩
        intro t ht _
        rcases List.mem_cons.mp ht with rfl | ht
        · exact ⟨min_le_left _ _, le_max_left _ _⟩
        · rcases List.mem_cons.mp ht with rfl | ht
          · exact ⟨min_le_right _ _, le_max_right _ _⟩
          · cases ht
    · rw [finite_fold_pair_pn ray pa pb x y hx hy]
      constructor
      · constructor
        · intro h; cases h
        · intro h; exact absurd hx (h x (List.mem_cons_self x [y]))
      · intro i hi
        rcases Option.some.inj hi with rfl
        refine ⟨List.mem_cons_self x [y], hx, List.mem_cons_self x [y], hx, ?_⟩
        intro t ht hpt
        rcases List.mem_cons.mp ht with rfl | ht
        · exact ⟨le_refl _, le_refl _⟩
        · rcases List.mem_cons.mp ht with rfl | ht
          · exact absurd hpt hy
          · cases ht
    · rw [finite_fold_pair_np ray pa pb x y hx hy]
      constructor
      · constructor
        · intro h; cases h
        · intro h; exact absurd hy (h y (List.mem_cons_of_mem x (List.mem_cons_self y [])))
      · intro i hi
        rcases Option.some.inj hi with rfl
        have hmy : (y : ℝ) ∈ [x, y] := List.mem_cons_of_mem x (List.mem_cons_self y [])
        refine ⟨hmy, hy, hmy, hy, ?_⟩
        intro t ht hpt
        rcases List.mem_cons.mp ht with rfl | ht
        · exact absurd hpt hx
        · rcases List.mem_cons.mp ht with rfl | ht
          · exact ⟨le_refl _, le_refl _⟩
          · cases ht
    · rw [finite_fold_pair_nn ray pa pb x y hx hy]
      constructor
      · constructor
        · intro _ t ht
          rcases List.mem_cons.mp ht with rfl | ht
          · exact hx
          · rcases List.mem_cons.mp ht with rfl | ht
            · exact hy
            · cases ht
        · intro _; rfl
      · intro i hi; cases hi

theorem sqr_len_nonneg (v : Vec3) : 0 ≤ v.sqr_len := by
  have hx := mul_self_nonneg v.x
  have hy := mul_self_nonneg v.y
  have hz := mul_self_nonneg v.z
  rw [Vec3.sqr_len]; linarith

theorem sqr_len_scale (v : Vec3) (k : ℝ) : (v.scale k).sqr_len = v.sqr_len * k ^ 2 := by
  simp only [Vec3.scale, Vec3.sqr_len]; ring

theorem sqr_len_neg (v : Vec3) : v.neg.sqr_len = v.sqr_len := by
  simp only [Vec3.neg, Vec3.sqr_len]; ring

theorem cyl_axis_unit (pa pb : Vec3) : (cyl_axis pa pb).sqr_len = 1 := by
  rw [cyl_axis]
  cases h : (pb - pa).normalized with
  | none => norm_num [Option.getD_none, Vec3.sqr_len]
  | some u =>
    simp only [Option.getD_some]
    rw [Vec3.normalized] at h
    by_cases hle : f32EPS ≤ (pb - pa).len
    · rw [if_pos hle] at h
      rcases Option.some.inj h with rfl
      have hpos : 0 < (pb - pa).len := lt_of_lt_of_le (by norm_num [f32EPS]) hle
      have hsq : (pb - pa).len ^ 2 = (pb - pa).sqr_len := Real.sq_sqrt (sqr_len_nonneg _)
      rw [sqr_len_scale, ← hsq, div_pow, one_pow]
      field_simp
    · rw [if_neg hle] at h; cases h

theorem from_normal_and_point_isSome_of_unit (n p : Vec3) (hn : n.sqr_len = 1) :
    (Plane.from_normal_and_point n p).isSome := by
  have hlen : n.len = 1 := by rw [Vec3.len, hn]; exact Real.sqrt_one
  rw [Plane.from_normal_and_point, Vec3.normalized, hlen,
    if_pos (by norm_num [f32EPS] : f32EPS ≤ (1 : ℝ))]
  rfl

/-- Claim C10: in the `Capped` branch the cap normal is always a unit vector
(the normalized axis, or the fixed fallback `(0, 1, 0)` when the axis points
coincide), so `Plane::from_normal_and_point(...).unwrap()` never panics: the
construction succeeds for both cap planes on every input. -/
theorem claim10_cap_plane_unwrap_safe (pa pb p : Vec3) :
    (cyl_axis pa pb).sqr_len = 1 ∧
    (Plane.from_normal_and_point ((cyl_axis pa pb).neg) p).isSome ∧
    (Plane.from_normal_and_point (cyl_axis pa pb) p).isSome :=
  ⟨cyl_axis_unit pa pb,
   from_normal_and_point_isSome_of_unit _ p
     (by rw [sqr_len_neg]; exact cyl_axis_unit pa pb),
   from_normal_and_point_isSome_of_unit _ p (cyl_axis_unit pa pb)⟩

/-! Concrete evaluation of the finite-cylinder example used as witness for
claim C6: the ray from origin `(-2, 1, 0)` along `(1, 0, 0)` against the
finite cylinder with axis from `(0, 0, 0)` to `(0, 2, 0)` and radius `1`. -/

theorem c6_axis_eval : cyl_axis ⟨0, 0, 0⟩ ⟨0, 2, 0⟩ = ⟨0, 1, 0⟩ := by
  rw [cyl_axis]
  rw [show (⟨0, 2, 0⟩ : Vec3) - ⟨0, 0, 0⟩ = ⟨0, 2, 0⟩ by rw [Vec3.sub_def]; norm_num]
  rw [normalized_eval ⟨0, 2, 0⟩ 2 (by norm_num)
    (by norm_num [Vec3.sqr_len]) (by norm_num [f32EPS])]
  simp only [Option.getD_some, Vec3.scale]
  norm_num

theorem c6_quadratic_eval :
    solve_quadratic (cyl_a ⟨⟨-2, 1, 0⟩, ⟨1, 0, 0⟩⟩ ⟨0, 0, 0⟩ ⟨0, 2, 0⟩)
      (cyl_b ⟨⟨-2, 1, 0⟩, ⟨1, 0, 0⟩⟩ ⟨0, 0, 0⟩ ⟨0, 2, 0⟩)
      (cyl_c ⟨⟨-2, 1, 0⟩, ⟨1, 0, 0⟩⟩ ⟨0, 0, 0⟩ ⟨0, 2, 0⟩ 1) = some [3, 1] := by
  have hvl : cyl_vl ⟨⟨-2, 1, 0⟩, ⟨1, 0, 0⟩⟩ ⟨0, 0, 0⟩ ⟨0, 2, 0⟩ = ⟨1, 0, 0⟩ := by
    rw [cyl_vl, c6_axis_eval]
    simp only [Vec3.dot, Vec3.scale, Vec3.sub_def]
    norm_num
  have hdpva : cyl_dpva ⟨⟨-2, 1, 0⟩, ⟨1, 0, 0⟩⟩ ⟨0, 0, 0⟩ ⟨0, 2, 0⟩ = ⟨-2, 0, 0⟩ := by
    rw [cyl_dpva, c6_axis_eval]
    simp only [Vec3.dot, Vec3.scale, Vec3.sub_def]
    norm_num
  have ha : cyl_a ⟨⟨-2, 1, 0⟩, ⟨1, 0, 0⟩⟩ ⟨0, 0, 0⟩ ⟨0, 2, 0⟩ = 1 := by
    rw [cyl_a, hvl]; norm_num [Vec3.sqr_len]
  have hb : cyl_b ⟨⟨-2, 1, 0⟩, ⟨1, 0, 0⟩⟩ ⟨0, 0, 0⟩ ⟨0, 2, 0⟩ = -4 := by
    rw [cyl_b, hvl, hdpva]; norm_num [Vec3.dot]
  have hc : cyl_c ⟨⟨-2, 1, 0⟩, ⟨1, 0, 0⟩⟩ ⟨0, 0, 0⟩ ⟨0, 2, 0⟩ 1 = 3 := by
    rw [cyl_c, hdpva]; norm_num [Vec3.sqr_len]
  rw [ha, hb, hc]
  unfold solve_quadratic
  rw [if_neg (by norm_num : ¬ ((-4 : ℝ) * -4 - 4 * 1 * 3 < 0)),
    if_pos (by norm_num : (1 : ℝ) ≠ 0)]
  have h4 : Real.sqrt ((-4 : ℝ) * -4 - 4 * 1 * 3) = 2 := by
    rw [show ((-4 : ℝ) * -4 - 4 * 1 * 3) = 2 ^ 2 by norm_num]
    exact Real.sqrt_sq (by norm_num)
  rw [h4]
  norm_num

/-- Claim C6 witness: the characterization applied to the concrete finite
cylinder example, with the solver hypothesis discharged by evaluation. -/
theorem claim6_witness :
    Ray.cylinder_intersection ⟨⟨-2, 1, 0⟩, ⟨1, 0, 0⟩⟩ ⟨0, 0, 0⟩ ⟨0, 2, 0⟩ 1
        CylinderKind.Finite = none ↔
      ∀ t ∈ ([3, 1] : List ℝ),
        ¬ (0 ≤ (Ray.get_point ⟨⟨-2, 1, 0⟩, ⟨1, 0, 0⟩⟩ t - ⟨0, 0, 0⟩).dot
              (cyl_axis ⟨0, 0, 0⟩ ⟨0, 2, 0⟩) ∧
           0 ≤ ((⟨0, 2, 0⟩ : Vec3) - Ray.get_point ⟨⟨-2, 1, 0⟩, ⟨1, 0, 0⟩⟩ t).dot
              (cyl_axis ⟨0, 0, 0⟩ ⟨0, 2, 0⟩)) :=
  (claim6_finite_cylinder ⟨⟨-2, 1, 0⟩, ⟨1, 0, 0⟩⟩ ⟨0, 0, 0⟩ ⟨0, 2, 0⟩ 1 [3, 1]
    c6_quadratic_eval).1

/-! Concrete evaluation for claim C7: the ray through `(0,-1,0)` and
`(0,3,0)` against the capped cylinder with axis `(0,0,0)`-`(0,2,0)` and
radius `1`. -/

theorem c7_neg_axis : (⟨0, 1, 0⟩ : Vec3).neg = ⟨0, -1, 0⟩ := by
  rw [Vec3.neg]; norm_num

theorem c7_plane_a :
    Plane.from_normal_and_point ⟨0, -1, 0⟩ ⟨0, 0, 0⟩ = some ⟨⟨0, -1, 0⟩, 0⟩ := by
  rw [Plane.from_normal_and_point,
    normalized_eval ⟨0, -1, 0⟩ 1 one_pos (by norm_num [Vec3.sqr_len]) (by norm_num [f32EPS])]
  simp only [Option.map_some']
  norm_num [Vec3.scale, Vec3.dot]

theorem c7_plane_b :
    Plane.from_normal_and_point ⟨0, 1, 0⟩ ⟨0, 2, 0⟩ = some ⟨⟨0, 1, 0⟩, -2⟩ := by
  rw [Plane.from_normal_and_point,
    normalized_eval ⟨0, 1, 0⟩ 1 one_pos (by norm_num [Vec3.sqr_len]) (by norm_num [f32EPS])]
  simp only [Option.map_some']
  norm_num [Vec3.scale, Vec3.dot]

theorem c7_t_a :
    Ray.plane_intersection ⟨⟨0, -1, 0⟩, ⟨0, 4, 0⟩⟩ ⟨⟨0, -1, 0⟩, 0⟩ = 1 / 4 := by
  simp only [Ray.plane_intersection, Vec3.dot]
  norm_num

theorem c7_t_b :
    Ray.plane_intersection ⟨⟨0, -1, 0⟩, ⟨0, 4, 0⟩⟩ ⟨⟨0, 1, 0⟩, -2⟩ = 3 / 4 := by
  simp only [Ray.plane_intersection, Vec3.dot]
  norm_num

theorem c7_point_a : Ray.get_point ⟨⟨0, -1, 0⟩, ⟨0, 4, 0⟩⟩ (1 / 4) = ⟨0, 0, 0⟩ := by
  simp only [Ray.get_point, Vec3.scale, Vec3.add_def]
  norm_num

theorem c7_point_b : Ray.get_point ⟨⟨0, -1, 0⟩, ⟨0, 4, 0⟩⟩ (3 / 4) = ⟨0, 2, 0⟩ := by
  simp only [Ray.get_point, Vec3.scale, Vec3.add_def]
  norm_num

theorem c7_quadratic_eval :
    solve_quadratic (cyl_a ⟨⟨0, -1, 0⟩, ⟨0, 4, 0⟩⟩ ⟨0, 0, 0⟩ ⟨0, 2, 0⟩)
      (cyl_b ⟨⟨0, -1, 0⟩, ⟨0, 4, 0⟩⟩ ⟨0, 0, 0⟩ ⟨0, 2, 0⟩)
      (cyl_c ⟨⟨0, -1, 0⟩, ⟨0, 4, 0⟩⟩ ⟨0, 0, 0⟩ ⟨0, 2, 0⟩ 1) = some [] := by
  have hvl : cyl_vl ⟨⟨0, -1, 0⟩, ⟨0, 4, 0⟩⟩ ⟨0, 0, 0⟩ ⟨0, 2, 0⟩ = ⟨0, 0, 0⟩ := by
    rw [cyl_vl, c6_axis_eval]
    simp only [Vec3.dot, Vec3.scale, Vec3.sub_def]
    norm_num
  have hdpva : cyl_dpva ⟨⟨0, -1, 0⟩, ⟨0, 4, 0⟩⟩ ⟨0, 0, 0⟩ ⟨0, 2, 0⟩ = ⟨0, 0, 0⟩ := by
    rw [cyl_dpva, c6_axis_eval]
    simp only [Vec3.dot, Vec3.scale, Vec3.sub_def]
    norm_num
  have ha : cyl_a ⟨⟨0, -1, 0⟩, ⟨0, 4, 0⟩⟩ ⟨0, 0, 0⟩ ⟨0, 2, 0⟩ = 0 := by
    rw [cyl_a, hvl]; norm_num [Vec3.sqr_len]
  have hb : cyl_b ⟨⟨0, -1, 0⟩, ⟨0, 4, 0⟩⟩ ⟨0, 0, 0⟩ ⟨0, 2, 0⟩ = 0 := by
    rw [cyl_b, hvl, hdpva]; norm_num [Vec3.dot]
  have hc : cyl_c ⟨⟨0, -1, 0⟩, ⟨0, 4, 0⟩⟩ ⟨0, 0, 0⟩ ⟨0, 2, 0⟩ 1 = -1 := by
    rw [cyl_c, hdpva]; norm_num [Vec3.sqr_len]
  rw [ha, hb, hc]
  unfold solve_quadratic
  rw [if_neg (by norm_num : ¬ ((0 : ℝ) * 0 - 4 * 0 * -1 < 0)),
    if_neg (by simp : ¬ ((0 : ℝ) ≠ 0)), if_neg (by simp : ¬ ((0 : ℝ) ≠ 0))]

theorem c7_cap_a :
    cap_step ⟨⟨0, -1, 0⟩, ⟨0, 4, 0⟩⟩ 1 ⟨f32MAX, -f32MAX⟩ (⟨0, 0, 0⟩, ⟨0, -1, 0⟩) =
      ⟨1 / 4, 1 / 4⟩ := by
  simp only [cap_step, c7_plane_a, Option.getD_some, c7_t_a]
  rw [if_pos (by norm_num : (1 / 4 : ℝ) > 0), c7_point_a,
    if_pos (by norm_num [Vec3.sqr_distance, Vec3.sqr_len, Vec3.sub_def] :
      (⟨0, 0, 0⟩ : Vec3).sqr_distance ⟨0, 0, 0⟩ ≤ 1 * 1)]
  simp only [IntersectionResult.merge]
  rw [if_pos (by norm_num [f32MAX] : (1 / 4 : ℝ) < f32MAX),
    if_pos (by norm_num [f32MAX] : (1 / 4 : ℝ) > -f32MAX)]

theorem c7_cap_b :
    cap_step ⟨⟨0, -1, 0⟩, ⟨0, 4, 0⟩⟩ 1 ⟨1 / 4, 1 / 4⟩ (⟨0, 2, 0⟩, ⟨0, 1, 0⟩) =
      ⟨1 / 4, 3 / 4⟩ := by
  simp only [cap_step, c7_plane_b, Option.getD_some, c7_t_b]
  rw [if_pos (by norm_num : (3 / 4 : ℝ) > 0), c7_point_b,
    if_pos (by norm_num [Vec3.sqr_distance, Vec3.sqr_len, Vec3.sub_def] :
      (⟨0, 2, 0⟩ : Vec3).sqr_distance ⟨0, 2, 0⟩ ≤ 1 * 1)]
  simp only [IntersectionResult.merge]
  rw [if_neg (by norm_num : ¬ ((3 / 4 : ℝ) < 1 / 4)),
    if_pos (by norm_num : (3 / 4 : ℝ) > 1 / 4)]

/-- Claim C7: the ray built from `(0,-1,0)` and `(0,3,0)` (parallel to the
cylinder axis) against the capped cylinder `pa = (0,0,0)`, `pb = (0,2,0)`,
`r = 1` yields the interval `[1/4, 3/4]`, whose bounds map through the ray
parametrization to the two cap hits at `y = 0` and `y = 2`. -/
theorem claim7_capped_cylinder_example :
    Ray.from_two_points ⟨0, -1, 0⟩ ⟨0, 3, 0⟩ = some ⟨⟨0, -1, 0⟩, ⟨0, 4, 0⟩⟩ ∧
    Ray.cylinder_intersection ⟨⟨0, -1, 0⟩, ⟨0, 4, 0⟩⟩ ⟨0, 0, 0⟩ ⟨0, 2, 0⟩ 1
      CylinderKind.Capped = some ⟨1 / 4, 3 / 4⟩ ∧
    Ray.get_point ⟨⟨0, -1, 0⟩, ⟨0, 4, 0⟩⟩ (1 / 4) = ⟨0, 0, 0⟩ ∧
    Ray.get_point ⟨⟨0, -1, 0⟩, ⟨0, 4, 0⟩⟩ (3 / 4) = ⟨0, 2, 0⟩ := by
  refine ⟨?_, ?_, c7_point_a, c7_point_b⟩
  · simp only [Ray.from_two_points]
    rw [show (⟨0, 3, 0⟩ : Vec3) - ⟨0, -1, 0⟩ = ⟨0, 4, 0⟩ by rw [Vec3.sub_def]; norm_num]
    have hlen : (⟨0, 4, 0⟩ : Vec3).len = 4 := by
      rw [Vec3.len, show (⟨0, 4, 0⟩ : Vec3).sqr_len = 4 ^ 2 by norm_num [Vec3.sqr_len]]
      exact Real.sqrt_sq (by norm_num)
    rw [hlen, if_pos (by norm_num [f32EPS] : f32EPS ≤ (4 : ℝ))]
  · simp only [Ray.cylinder_intersection, c7_quadratic_eval, c6_axis_eval, c7_neg_axis]
    simp only [IntersectionResult.from_slice, List.foldl, IntersectionResult.merge_slice]
    rw [c7_cap_a, c7_cap_b]

/-! Helper lemmas for claim C8: the capsule with a zero-length segment. -/

theorem dot_sub_swap (a b v : Vec3) : (a - b).dot v = -((b - a).dot v) := by
  simp only [Vec3.dot, Vec3.sub_def]; ring

theorem normalized_zero : (⟨0, 0, 0⟩ : Vec3).normalized = none := by
  have h0 : (⟨0, 0, 0⟩ : Vec3).len = 0 := by
    rw [Vec3.len]; norm_num [Vec3.sqr_len]
  rw [Vec3.normalized, h0, if_neg (by norm_num [f32EPS])]

theorem cyl_axis_self (p : Vec3) : cyl_axis p p = ⟨0, 1, 0⟩ := by
  rw [cyl_axis, show (p - p : Vec3) = ⟨0, 0, 0⟩ by rw [Vec3.sub_def]; norm_num,
    normalized_zero]
  rfl

theorem cyl_sphere_value (ray : Ray) (p : Vec3) (r t : ℝ) :
    cyl_a ray p p * (t * t) + cyl_b ray p p * t + cyl_c ray p p r +
      ((ray.get_point t - p).dot (cyl_axis p p)) ^ 2 =
    (ray.dir.dot ray.dir) * (t * t) + (2 * ray.dir.dot (ray.origin - p)) * t +
      ((ray.origin - p).dot (ray.origin - p) - r * r) := by
  simp only [cyl_a, cyl_b, cyl_c, cyl_vl, cyl_dpva, cyl_axis_self, Ray.get_point,
    Vec3.dot, Vec3.scale, Vec3.sub_def, Vec3.add_def, Vec3.sqr_len]
  ring

theorem discrim_nonneg_of_root (a b c t : ℝ) (h : a * (t * t) + b * t + c = 0) :
    0 ≤ b * b - 4 * a * c := by
  have hk : b * b - 4 * a * c = (2 * a * t + b) ^ 2 - 4 * a * (a * (t * t) + b * t + c) := by
    ring
  rw [hk, h, mul_zero, sub_zero]
  exact sq_nonneg _

theorem solver_roots_satisfy (a b c : ℝ) (l : List ℝ)
    (h : solve_quadratic a b c = some l) (t : ℝ) (ht : t ∈ l) :
    a * (t * t) + b * t + c = 0 := by
  unfold solve_quadratic at h
  by_cases h1 : b * b - 4 * a * c < 0
  · rw [if_pos h1] at h; cases h
  · rw [if_neg h1] at h
    by_cases h2 : a ≠ 0
    · rw [if_pos h2] at h
      rcases Option.some.inj h with rfl
      have hd : discrim a b c =
          Real.sqrt (b * b - 4 * a * c) * Real.sqrt (b * b - 4 * a * c) := by
        rw [discrim, Real.mul_self_sqrt (not_lt.mp h1)]; ring
      apply (quadratic_eq_zero_iff h2 hd t).mpr
      rcases List.mem_cons.mp ht with rfl | ht
      · exact Or.inl rfl
      · rcases List.mem_cons.mp ht with rfl | ht
        · exact Or.inr rfl
        · cases ht
    · rw [if_neg h2] at h
      push_neg at h2
      by_cases h3 : b ≠ 0
      · rw [if_pos h3] at h
        rcases Option.some.inj h with rfl
        rcases List.mem_cons.mp ht with rfl | ht2
        · rw [h2]
          field_simp
          ring
        · cases ht2
      · rw [if_neg h3] at h
        rcases Option.some.inj h with rfl
        cases ht

theorem sphere_intersection_eq (ray : Ray) (p : Vec3) (r : ℝ) :
    ray.sphere_intersection p r =
      (solve_quadratic (ray.dir.dot ray.dir) (2 * ray.dir.dot (ray.origin - p))
        ((ray.origin - p).dot (ray.origin - p) - r * r)).map
          IntersectionResult.from_slice := by
  cases h : solve_quadratic (ray.dir.dot ray.dir) (2 * ray.dir.dot (ray.origin - p))
      ((ray.origin - p).dot (ray.origin - p) - r * r) <;>
    simp [Ray.sphere_intersection, h]

theorem survivor_sphere_root (ray : Ray) (p : Vec3) (r : ℝ) (lc : List ℝ)
    (hqc : solve_quadratic (cyl_a ray p p) (cyl_b ray p p) (cyl_c ray p p r) = some lc)
    (t : ℝ) (ht : t ∈ lc)
    (hpred : 0 ≤ (ray.get_point t - p).dot (cyl_axis p p) ∧
      0 ≤ (p - ray.get_point t).dot (cyl_axis p p)) :
    (ray.dir.dot ray.dir) * (t * t) + (2 * ray.dir.dot (ray.origin - p)) * t +
      ((ray.origin - p).dot (ray.origin - p) - r * r) = 0 := by
  have hy : (ray.get_point t - p).dot (cyl_axis p p) = 0 := by
    have h2 := hpred.2
    rw [dot_sub_swap] at h2
    linarith [hpred.1]
  have hval := solver_roots_satisfy _ _ _ _ hqc t ht
  have hkey := cyl_sphere_value ray p r t
  rw [hy, hval] at hkey
  rw [← hkey]
  norm_num

theorem finite_fold_some (ray : Ray) (pa pb : Vec3) (l : List ℝ)
    (hl : l = [] ∨ (∃ x, l = [x]) ∨ (∃ x y, l = [x, y])) (i : IntersectionResult)
    (h : l.foldl (finite_step ray pa pb) none = some i) :
    i.min ∈ l ∧
    (0 ≤ (ray.get_point i.min - pa).dot (cyl_axis pa pb) ∧
      0 ≤ (pb - ray.get_point i.min).dot (cyl_axis pa pb)) ∧
    i.max ∈ l ∧
    (0 ≤ (ray.get_point i.max - pa).dot (cyl_axis pa pb) ∧
      0 ≤ (pb - ray.get_point i.max).dot (cyl_axis pa pb)) ∧
    i.min ≤ i.max := by
  rcases hl with rfl | ⟨x, rfl⟩ | ⟨x, y, rfl⟩
  · cases h
  · by_cases hx : 0 ≤ (ray.get_point x - pa).dot (cyl_axis pa pb) ∧
        0 ≤ (pb - ray.get_point x).dot (cyl_axis pa pb)
    · rw [finite_fold_single_pos ray pa pb x hx] at h
      rcases Option.some.inj h with rfl
      exact ⟨List.mem_cons_self x [], hx, List.mem_cons_self x [], hx, le_refl x⟩
    · rw [finite_fold_single_neg ray pa pb x hx] at h
      cases h
  · by_cases hx : 0 ≤ (ray.get_point x - pa).dot (cyl_axis pa pb) ∧
        0 ≤ (pb - ray.get_point x).dot (cyl_axis pa pb) <;>
      by_cases hy : 0 ≤ (ray.get_point y - pa).dot (cyl_axis pa pb) ∧
        0 ≤ (pb - ray.get_point y).dot (cyl_axis pa pb)
    · rw [finite_fold_pair_pp ray pa pb x y hx hy] at h
      rcases Option.some.inj h with rfl
      have hminmem : Min.min x y ∈ ([x, y] : List ℝ) := by
        rcases min_choice x y with hc | hc <;> rw [hc] <;> simp
      have hmaxmem : Max.max x y ∈ ([x, y] : List ℝ) := by
        rcases max_choice x y with hc | hc <;> rw [hc] <;> simp
      have hminpred : 0 ≤ (ray.get_point (Min.min x y) - pa).dot (cyl_axis pa pb) ∧
          0 ≤ (pb - ray.get_point (Min.min x y)).dot (cyl_axis pa pb) := by
        rcases min_choice x y with hc | hc <;> rw [hc]
        · exact hx
        · exact hy
      have hmaxpred : 0 ≤ (ray.get_point (Max.max x y) - pa).dot (cyl_axis pa pb) ∧
          0 ≤ (pb - ray.get_point (Max.max x y)).dot (cyl_axis pa pb) := by
        rcases max_choice x y with hc | hc <;> rw [hc]
        · exact hx
        · exact hy
      exact ⟨hminmem, hminpred, hmaxmem, hmaxpred, min_le_max⟩
    · rw [finite_fold_pair_pn ray pa pb x y hx hy] at h
      rcases Option.some.inj h with rfl
      exact ⟨List.mem_cons_self x [y], hx, List.mem_cons_self x [y], hx, le_refl x⟩
    · rw [finite_fold_pair_np ray pa pb x y hx hy] at h
      rcases Option.some.inj h with rfl
      have hmy : (y : ℝ) ∈ [x, y] := List.mem_cons_of_mem x (List.mem_cons_self y [])
      exact ⟨hmy, hy, hmy, hy, le_refl y⟩
    · rw [finite_fold_pair_nn ray pa pb x y hx hy] at h
      cases h

theorem from_set_none_sphere (Is : IntersectionResult) :
    IntersectionResult.from_set [none, some Is, some Is] =
      some ((Is.merge Is.min).merge Is.max) := rfl

theorem from_set_some_sphere (Ic Is : IntersectionResult) :
    IntersectionResult.from_set [some Ic, some Is, some Is] =
      some ((((Ic.merge Is.min).merge Is.max).merge Is.min).merge Is.max) := rfl

theorem merge_self_self (i : IntersectionResult) (h : i.min ≤ i.max) :
    (i.merge i.min).merge i.max = i := by
  rw [merge_two i i h, min_self, max_self]

theorem absorb_merge (a w : IntersectionResult) (hw : w.min ≤ w.max)
    (h1 : w.min ≤ a.min) (h2 : a.max ≤ w.max) : (a.merge w.min).merge w.max = w := by
  rw [merge_two a w hw, min_eq_right h1, max_eq_right h2]

theorem from_slice_min_le (roots : List ℝ) (x : ℝ) (hx : x ∈ roots) :
    (IntersectionResult.from_slice roots).min ≤ x :=
  foldl_min_le_mem roots f32MAX x hx

theorem from_slice_le_max (roots : List ℝ) (x : ℝ) (hx : x ∈ roots) :
    x ≤ (IntersectionResult.from_slice roots).max :=
  foldl_max_mem_le roots (-f32MAX) x hx

theorem from_slice_wf (roots : List ℝ) (hne : roots ≠ []) :
    (IntersectionResult.from_slice roots).min ≤ (IntersectionResult.from_slice roots).max := by
  obtain ⟨x0, hx0⟩ := List.exists_mem_of_ne_nil roots hne
  exact le_trans (from_slice_min_le roots x0 hx0) (from_slice_le_max roots x0 hx0)

/-- Claim C8: a capsule with a zero-length segment (`pa = pb = p`) degrades
to a pure sphere test: the union of the degenerate finite-cylinder result and
the two identical sphere-cap results collapses to the sphere intersection. -/
theorem claim8_capsule_degenerate_sphere (ray : Ray) (p : Vec3) (r : ℝ) :
    ray.capsule_intersection p p r = ray.sphere_intersection_points p r := by
  by_cases hdisc : (2 * ray.dir.dot (ray.origin - p)) * (2 * ray.dir.dot (ray.origin - p)) -
      4 * (ray.dir.dot ray.dir) * ((ray.origin - p).dot (ray.origin - p) - r * r) < 0
  · -- the sphere quadratic has no roots: every sub-result is absent
    have hS : ray.sphere_intersection p r = none := by
      rw [sphere_intersection_eq]
      unfold solve_quadratic
      rw [if_pos hdisc]
      rfl
    have hcylnone : ray.cylinder_intersection p p r CylinderKind.Finite = none := by
      cases hqc : solve_quadratic (cyl_a ray p p) (cyl_b ray p p) (cyl_c ray p p r) with
      | none => simp [Ray.cylinder_intersection, hqc]
      | some lc =>
        have hnosurv : ∀ t ∈ lc, ¬ (0 ≤ (ray.get_point t - p).dot (cyl_axis p p) ∧
            0 ≤ (p - ray.get_point t).dot (cyl_axis p p)) := by
          intro t ht hpred
          exact absurd (discrim_nonneg_of_root _ _ _ t
            (survivor_sphere_root ray p r lc hqc t ht hpred)) (not_le.mpr hdisc)
        simp only [Ray.cylinder_intersection, hqc]
        rcases solve_quadratic_shape _ _ _ _ hqc with rfl | ⟨x, rfl⟩ | ⟨x, y, rfl⟩
        · rfl
        · exact finite_fold_single_neg ray p p x (hnosurv x (List.mem_cons_self x []))
        · exact finite_fold_pair_nn ray p p x y
            (hnosurv x (List.mem_cons_self x [y]))
            (hnosurv y (List.mem_cons_of_mem x (List.mem_cons_self y [])))
    simp only [Ray.capsule_intersection, Ray.sphere_intersection_points, hS, hcylnone]
    rfl
  · by_cases ha : ray.dir.dot ray.dir ≠ 0
    · -- genuine sphere quadratic with two listed roots
      obtain ⟨R1, R2, hqs, hroots⟩ : ∃ R1 R2,
          solve_quadratic (ray.dir.dot ray.dir) (2 * ray.dir.dot (ray.origin - p))
            ((ray.origin - p).dot (ray.origin - p) - r * r) = some [R1, R2] ∧
          ∀ t, (ray.dir.dot ray.dir) * (t * t) + (2 * ray.dir.dot (ray.origin - p)) * t +
            ((ray.origin - p).dot (ray.origin - p) - r * r) = 0 → t = R1 ∨ t = R2 := by
        refine ⟨(-(2 * ray.dir.dot (ray.origin - p)) +
            Real.sqrt ((2 * ray.dir.dot (ray.origin - p)) *
                (2 * ray.dir.dot (ray.origin - p)) -
              4 * (ray.dir.dot ray.dir) *
                ((ray.origin - p).dot (ray.origin - p) - r * r))) /
            (2 * (ray.dir.dot ray.dir)),
          (-(2 * ray.dir.dot (ray.origin - p)) -
            Real.sqrt ((2 * ray.dir.dot (ray.origin - p)) *
                (2 * ray.dir.dot (ray.origin - p)) -
              4 * (ray.dir.dot ray.dir) *
                ((ray.origin - p).dot (ray.origin - p) - r * r))) /
            (2 * (ray.dir.dot ray.dir)), ?_, ?_⟩
        · unfold solve_quadratic
          rw [if_neg hdisc, if_pos ha]
        · intro t htv
          have hd : discrim (ray.dir.dot ray.dir) (2 * ray.dir.dot (ray.origin - p))
              ((ray.origin - p).dot (ray.origin - p) - r * r) =
              Real.sqrt ((2 * ray.dir.dot (ray.origin - p)) *
                  (2 * ray.dir.dot (ray.origin - p)) -
                4 * (ray.dir.dot ray.dir) *
                  ((ray.origin - p).dot (ray.origin - p) - r * r)) *
              Real.sqrt ((2 * ray.dir.dot (ray.origin - p)) *
                  (2 * ray.dir.dot (ray.origin - p)) -
                4 * (ray.dir.dot ray.dir) *
                  ((ray.origin - p).dot (ray.origin - p) - r * r)) := by
            rw [discrim, Real.mul_self_sqrt (not_lt.mp hdisc)]; ring
          exact (quadratic_eq_zero_iff ha hd t).mp htv
      have hS : ray.sphere_intersection p r =
          some (IntersectionResult.from_slice [R1, R2]) := by
        rw [sphere_intersection_eq, hqs]; rfl
      have hwfs : (IntersectionResult.from_slice [R1, R2]).min ≤
          (IntersectionResult.from_slice [R1, R2]).max := from_slice_wf [R1, R2] (by simp)
      cases hcyl : ray.cylinder_intersection p p r CylinderKind.Finite with
      | none =>
        simp only [Ray.capsule_intersection, Ray.sphere_intersection_points, hS, hcyl,
          from_set_none_sphere]
        rw [merge_self_self _ hwfs]
      | some Ic =>
        cases hqc : solve_quadratic (cyl_a ray p p) (cyl_b ray p p) (cyl_c ray p p r) with
        | none =>
          rw [show ray.cylinder_intersection p p r CylinderKind.Finite = none by
            simp [Ray.cylinder_intersection, hqc]] at hcyl
          cases hcyl
        | some lc =>
          have hfold : lc.foldl (finite_step ray p p) none = some Ic := by
            have hh := hcyl
            simp only [Ray.cylinder_intersection, hqc] at hh
            exact hh
          obtain ⟨hminmem, hminpred, hmaxmem, hmaxpred, hwfc⟩ :=
            finite_fold_some ray p p lc (solve_quadratic_shape _ _ _ _ hqc) Ic hfold
          have hmin12 : Ic.min = R1 ∨ Ic.min = R2 :=
            hroots Ic.min (survivor_sphere_root ray p r lc hqc Ic.min hminmem hminpred)
          have hmax12 : Ic.max = R1 ∨ Ic.max = R2 :=
            hroots Ic.max (survivor_sphere_root ray p r lc hqc Ic.max hmaxmem hmaxpred)
          have h1 : (IntersectionResult.from_slice [R1, R2]).min ≤ Ic.min := by
            rcases hmin12 with he | he <;> rw [he] <;>
              exact from_slice_min_le _ _ (by simp)
          have h2 : Ic.max ≤ (IntersectionResult.from_slice [R1, R2]).max := by
            rcases hmax12 with he | he <;> rw [he] <;>
              exact from_slice_le_max _ _ (by simp)
          simp only [Ray.capsule_intersection, Ray.sphere_intersection_points, hS, hcyl,
            from_set_some_sphere]
          rw [absorb_merge Ic (IntersectionResult.from_slice [R1, R2]) hwfs h1 h2,
            merge_self_self _ hwfs]
    · -- degenerate direction: the quadratic of both the sphere and the
      -- cylinder is constant, both sides evaluate to `none`
      push_neg at ha
      have ha' := ha
      rw [Vec3.dot] at ha'
      have hdx : ray.dir.x = 0 := by
        have h2 : ray.dir.x * ray.dir.x = 0 := by
          nlinarith [mul_self_nonneg ray.dir.x, mul_self_nonneg ray.dir.y,
            mul_self_nonneg ray.dir.z]
        exact mul_self_eq_zero.mp h2
      have hdy : ray.dir.y = 0 := by
        have h2 : ray.dir.y * ray.dir.y = 0 := by
          nlinarith [mul_self_nonneg ray.dir.x, mul_self_nonneg ray.dir.y,
            mul_self_nonneg ray.dir.z]
        exact mul_self_eq_zero.mp h2
      have hdz : ray.dir.z = 0 := by
        have h2 : ray.dir.z * ray.dir.z = 0 := by
          nlinarith [mul_self_nonneg ray.dir.x, mul_self_nonneg ray.dir.y,
            mul_self_nonneg ray.dir.z]
        exact mul_self_eq_zero.mp h2
      have hdir : ray.dir = ⟨0, 0, 0⟩ := by
        have he : ray.dir = ⟨ray.dir.x, ray.dir.y, ray.dir.z⟩ := rfl
        rw [he, hdx, hdy, hdz]
      have hB : 2 * ray.dir.dot (ray.origin - p) = 0 := by
        rw [hdir]; simp [Vec3.dot]
      have hqs : solve_quadratic (ray.dir.dot ray.dir)
          (2 * ray.dir.dot (ray.origin - p))
          ((ray.origin - p).dot (ray.origin - p) - r * r) = some [] := by
        rw [ha, hB]
        unfold solve_quadratic
        rw [if_neg (by simp :
          ¬ ((0 : ℝ) * 0 - 4 * 0 * ((ray.origin - p).dot (ray.origin - p) - r * r) < 0))]
        rw [if_neg (by simp : ¬ ((0 : ℝ) ≠ 0)), if_neg (by simp : ¬ ((0 : ℝ) ≠ 0))]
      have hS : ray.sphere_intersection p r = some ⟨f32MAX, -f32MAX⟩ := by
        rw [sphere_intersection_eq, hqs]; rfl
      have hvl : cyl_vl ray p p = ⟨0, 0, 0⟩ := by
        rw [cyl_vl, cyl_axis_self, hdir]
        simp [Vec3.dot, Vec3.scale, Vec3.sub_def]
      have hca : cyl_a ray p p = 0 := by rw [cyl_a, hvl]; norm_num [Vec3.sqr_len]
      have hcb : cyl_b ray p p = 0 := by rw [cyl_b, hvl]; norm_num [Vec3.dot]
      have hqc : solve_quadratic (cyl_a ray p p) (cyl_b ray p p) (cyl_c ray p p r) =
          some [] := by
        rw [hca, hcb]
        unfold solve_quadratic
        rw [if_neg (by simp : ¬ ((0 : ℝ) * 0 - 4 * 0 * cyl_c ray p p r < 0))]
        rw [if_neg (by simp : ¬ ((0 : ℝ) ≠ 0)), if_neg (by simp : ¬ ((0 : ℝ) ≠ 0))]
      have hcyl : ray.cylinder_intersection p p r CylinderKind.Finite = none := by
        simp only [Ray.cylinder_intersection, hqc]
        rfl
      simp only [Ray.capsule_intersection, Ray.sphere_intersection_points, hS, hcyl,
        from_set_none_sphere]
      have hmm : (((⟨f32MAX, -f32MAX⟩ : IntersectionResult).merge
          (⟨f32MAX, -f32MAX⟩ : IntersectionResult).min).merge
          (⟨f32MAX, -f32MAX⟩ : IntersectionResult).max) = ⟨-f32MAX, f32MAX⟩ := by
        norm_num [IntersectionResult.merge, f32MAX]
      rw [hmm]
      have hte1 : ray.try_eval_points (some ⟨-f32MAX, f32MAX⟩) = none := by
        simp only [Ray.try_eval_points]
        rw [if_neg (by norm_num [f32MAX] : ¬ ((0 : ℝ) ≤ -f32MAX ∧ -f32MAX ≤ 1)),
          if_neg (by norm_num [f32MAX] : ¬ ((0 : ℝ) ≤ f32MAX ∧ f32MAX ≤ 1))]
      have hte2 : ray.try_eval_points (some ⟨f32MAX, -f32MAX⟩) = none := by
        simp only [Ray.try_eval_points]
        rw [if_neg (by norm_num [f32MAX] : ¬ ((0 : ℝ) ≤ f32MAX ∧ f32MAX ≤ 1)),
          if_neg (by norm_num [f32MAX] : ¬ ((0 : ℝ) ≤ -f32MAX ∧ -f32MAX ≤ 1))]
      rw [hte1, hte2]

end FyroxMath

end
